import Mathlib

/-!
Verification of the `fops` repository (file operations utility) against its
specification.  The development embeds the Python functions of
`src/fops/core.py` and `src/fops/utils.py` as Lean definitions:

* the glob matcher used by `pathlib.Path.rglob` (per-component `fnmatch`
  semantics with `**` spanning any number of components);
* the match / deduplicate / sort pipeline of `create_archive`
  (core.py lines 133-139);
* the staging loop of `create_archive` (lines 141-168), as explicit state
  passing over a staging tree, including the `is_dir()` / `is_symlink()` /
  `is_file()` branch order and the collision `unlink`;
* the validation prologue of `create_archive` (lines 114-131) and the
  `tempfile.TemporaryDirectory` teardown guarantee, with I/O failures
  modelled by an oracle;
* `clear_cache` (lines 51-77) over a path-level filesystem model;
* `confirm` (lines 80-104) over a list of input lines.

Machine paths are lists of string components relative to a root; the string
form of a path (Python `str(p)`) is the `/`-join of the components.
-/

namespace Fops

/-! ### Character and string helpers (Python `str` operations) -/

/-- Python `str.strip()` on the character list: drop whitespace at both ends. -/
def stripChars (l : List Char) : List Char :=
  ((l.dropWhile Char.isWhitespace).reverse.dropWhile Char.isWhitespace).reverse

/-- Python `str.strip()`. -/
def pyStrip (s : String) : String :=
  String.mk (stripChars s.data)

/-- Python `str.lower()` (ASCII case folding suffices for the inputs used here). -/
def pyLower (s : String) : String :=
  String.mk (s.data.map Char.toLower)

/-- Test for list-of-characters containment, Python `needle in haystack`. -/
def isPrefixChars : List Char → List Char → Bool
  | [], _ => true
  | _ :: _, [] => false
  | a :: as, b :: bs => a == b && isPrefixChars as bs

/-- Python substring test `needle in haystack` over character lists. -/
def containsChars (needle : List Char) : List Char → Bool
  | [] => isPrefixChars needle []
  | c :: t => isPrefixChars needle (c :: t) || containsChars needle t

/-- Split a character list on `'/'` (Python `str.split("/")`). -/
def splitSlash : List Char → List (List Char)
  | [] => [[]]
  | c :: t =>
    if c = '/' then [] :: splitSlash t
    else
      match splitSlash t with
      | [] => [[c]]
      | h :: r => (c :: h) :: r

theorem splitSlash_no_slash : ∀ (l : List Char), ∀ p ∈ splitSlash l, '/' ∉ p := by
  intro l
  induction l with
  | nil => intro p hp; simp [splitSlash] at hp; simp [hp]
  | cons c t ih =>
    intro p hp
    by_cases hc : c = '/'
    · simp [splitSlash, hc] at hp
      rcases hp with h | h
      · simp [h]
      · exact ih p h
    · simp only [splitSlash, if_neg hc] at hp
      rcases hmatch : splitSlash t with _ | ⟨h₀, r⟩
      · simp [hmatch] at hp
        simp [hp]
        exact fun h => hc h.symm
      · simp [hmatch] at hp
        rcases hp with h | h
        · subst h
          intro hmem
          rcases List.mem_cons.mp hmem with h' | h'
          · exact hc h'.symm
          · exact ih h₀ (by simp [hmatch]) h'
        · exact ih p (by simp [hmatch, h])

/-! ### The `fnmatch` pattern matcher used by `pathlib` glob components -/

/-- Scan for the closing `']'` of a character class; returns the class body
and the remaining pattern characters. -/
def scanClose : List Char → Option (List Char × List Char)
  | [] => none
  | c :: t =>
    if c = ']' then some ([], t)
    else
      match scanClose t with
      | none => none
      | some (b, r) => some (c :: b, r)

/-- Parse a character class after the opening `'['` in the way
`fnmatch.translate` does: an optional leading `'!'` negates; a `']'` right
after that is a literal member; the class runs to the next `']'`.  Returns
`none` when there is no closing `']'` (then `'['` is a literal character). -/
def classSplit (ps : List Char) : Option (Bool × List Char × List Char) :=
  match ps with
  | [] => none
  | c :: t =>
    if c = '!' then
      match t with
      | [] => none
      | d :: u =>
        if d = ']' then
          match scanClose u with
          | none => none
          | some (b, r) => some (true, ']' :: b, r)
        else
          match scanClose (d :: u) with
          | none => none
          | some (b, r) => some (true, b, r)
    else if c = ']' then
      match scanClose t with
      | none => none
      | some (b, r) => some (false, ']' :: b, r)
    else
      match scanClose (c :: t) with
      | none => none
      | some (b, r) => some (false, b, r)

/-- Membership in an `fnmatch` character-class body, with `a-b` ranges. -/
def classMember : List Char → Char → Bool
  | [], _ => false
  | [x], c => x == c
  | x :: '-' :: y :: rest, c => (decide (x ≤ c) && decide (c ≤ y)) || classMember rest c
  | x :: rest, c => x == c || classMember rest c

/-- Tokens of an `fnmatch` pattern. -/
inductive PTok where
  | star : PTok
  | qmark : PTok
  | cls (neg : Bool) (body : List Char) : PTok
  | lit (c : Char) : PTok
deriving DecidableEq, Repr

/-- Tokenize an `fnmatch` pattern (the translation `fnmatch.translate`
performs before matching).  The recursion consumes at least one pattern
character per step; the explicit fuel (structural recursion on `Nat`) makes
the definition computable by the kernel and never runs out when primed with
the pattern length. -/
def tokenizeF : Nat → List Char → List PTok
  | 0, _ => []
  | _ + 1, [] => []
  | fuel + 1, c :: ps =>
    if c = '*' then .star :: tokenizeF fuel ps
    else if c = '?' then .qmark :: tokenizeF fuel ps
    else if c = '[' then
      match classSplit ps with
      | none => .lit '[' :: tokenizeF fuel ps
      | some (n, b, r) => .cls n b :: tokenizeF fuel r
    else .lit c :: tokenizeF fuel ps

/-- Tokenization of a whole pattern, with sufficient fuel. -/
def tokenize (l : List Char) : List PTok :=
  tokenizeF (l.length + 1) l

/-- Match a tokenized `fnmatch` pattern against a component name.  Each
step shortens the pattern or the name, so fuel `ps.length + s.length + 1`
never runs out. -/
def tokMatchF : Nat → List PTok → List Char → Bool
  | 0, _, _ => false
  | _ + 1, [], s => s.isEmpty
  | fuel + 1, .star :: ps, s =>
    tokMatchF fuel ps s ||
      (match s with
       | [] => false
       | _ :: t => tokMatchF fuel (.star :: ps) t)
  | fuel + 1, .qmark :: ps, s =>
    (match s with
     | [] => false
     | _ :: t => tokMatchF fuel ps t)
  | fuel + 1, .cls n b :: ps, s =>
    (match s with
     | [] => false
     | c :: t => (if n then !(classMember b c) else classMember b c) && tokMatchF fuel ps t)
  | fuel + 1, .lit a :: ps, s =>
    (match s with
     | [] => false
     | c :: t => (a == c) && tokMatchF fuel ps t)

/-- Python `fnmatch.fnmatchcase` on a single path component. -/
def fnmatchComp (pat comp : List Char) : Bool :=
  tokMatchF (pat.length + comp.length + 1) (tokenize pat) comp

/-- Match a list of glob pattern components against path components.  A
component that is exactly `**` matches any number (including zero) of
leading components; other components are matched by `fnmatch`.  This is the
matcher behind `pathlib.PurePath.match` / `Path.glob`; the fuel shrinks by
one per step and is primed with more than the total input size. -/
def compsMatchF : Nat → List (List Char) → List (List Char) → Bool
  | 0, _, _ => false
  | _ + 1, [], s => s.isEmpty
  | fuel + 1, p :: ps, s =>
    if p = ['*', '*'] then
      compsMatchF fuel ps s ||
        (match s with
         | [] => false
         | _ :: t => compsMatchF fuel (p :: ps) t)
    else
      (match s with
       | [] => false
       | c :: t => fnmatchComp p c && compsMatchF fuel ps t)

/-- Component matching with sufficient fuel. -/
def compsMatch (ps s : List (List Char)) : Bool :=
  compsMatchF (ps.length + s.length + 1) ps s

/-- Semantics of `dir_path.rglob(pattern)` on a path given by its
components relative to `dir_path`: `rglob(p)` is `glob("**/" + p)`. -/
def rglobMatch (pat : String) (path : List String) : Bool :=
  compsMatch (['*', '*'] :: splitSlash pat.data) (path.map String.data)

/-! ### Paths, their string form, and the entry model -/

/-- Python `str(p)` for a relative path given by its components: the
components joined with `"/"`. -/
def joinPath : List String → String
  | [] => ""
  | [c] => c
  | c :: rest => c ++ "/" ++ joinPath rest

/-- Valid path component of a real filesystem: nonempty and without `'/'`. -/
def validComp (c : String) : Bool :=
  !c.data.isEmpty && !(decide ('/' ∈ c.data))

/-- Valid relative path: a nonempty list of valid components. -/
def validPath (p : List String) : Bool :=
  !p.isEmpty && p.all validComp

/-- Kind of a filesystem entry as the staging loop of `create_archive`
observes it.  `src_path.is_dir()` follows symbolic links, so a symlink whose
resolved target is a directory is distinguished from other symlinks. -/
inductive EKind where
  | dir : EKind
  | file : EKind
  | symlinkToDir (target : String) : EKind
  | symlinkOther (target : String) : EKind
  | other : EKind
deriving DecidableEq, Repr

/-- An entry of the source directory, with its path relative to the
resolved source root. -/
structure Entry where
  path : List String
  kind : EKind
deriving DecidableEq, Repr

/-- Sort key of `create_archive` line 139: `str(p.relative_to(dir_path))`,
compared as Python compares strings (pointwise by code point, shorter
prefix first), which is the lexicographic order on the character list. -/
def entryKey (e : Entry) : List Char :=
  (joinPath e.path).data

/-- Comparison used by `sorted(..., key=lambda p: str(p.relative_to(dir_path)))`. -/
def entryLe (e₁ e₂ : Entry) : Prop :=
  entryKey e₁ ≤ entryKey e₂

instance : DecidableRel entryLe :=
  fun a b => inferInstanceAs (Decidable (entryKey a ≤ entryKey b))

instance : IsTotal Entry entryLe :=
  ⟨fun a b => le_total (entryKey a) (entryKey b)⟩

instance : IsTrans Entry entryLe :=
  ⟨fun _ _ _ h₁ h₂ => le_trans h₁ h₂⟩

/-- Strict version of `entryLe`, used to show sorted output is unique. -/
def entryLt (e₁ e₂ : Entry) : Prop :=
  entryKey e₁ < entryKey e₂

instance : IsAntisymm Entry entryLt :=
  ⟨fun _ _ h₁ h₂ => absurd h₂ (lt_asymm h₁)⟩

/-- Defaulting of the pattern argument, line 118:
`patterns = list(patterns) if patterns else ["**/*"]`. -/
def effectivePatterns (pats : List String) : List String :=
  if pats.isEmpty then ["**/*"] else pats

/-- Lines 133-136: the deduplicated union over all patterns of the
`rglob` matches — exactly the entries matched by at least one pattern. -/
def matchedList (fs : List Entry) (pats : List String) : List Entry :=
  fs.filter (fun e => pats.any (fun pat => rglobMatch pat e.path))

/-- Line 139: the match set sorted by the string form of the relative path. -/
def orderedMatchList (fs : List Entry) (pats : List String) : List Entry :=
  List.insertionSort entryLe (matchedList fs pats)

/-- Entry kinds the staging loop materializes; line 167-168 skips every
other kind (device, socket, fifo). -/
def stagedKind : EKind → Bool
  | .other => false
  | _ => true

/-- The entries of the ordered match list the staging loop acts on. -/
def stagedSelection (l : List Entry) : List Entry :=
  l.filter (fun e => stagedKind e.kind)

/-! ### The staging tree (contents of the temporary directory) -/

/-- Kind of an entry inside the staging tree. -/
inductive SKind where
  | dir : SKind
  | file : SKind
  | symlink (target : String) : SKind
deriving DecidableEq, Repr

/-- The staging tree: an association of staged relative paths to kinds. -/
abbrev StageState := List (List String × SKind)

/-- Errors raised by the OS during a staging step. -/
inductive StageErr where
  | isADirectory : StageErr
  | fileExists : StageErr
deriving DecidableEq, Repr

/-- Look up the entry at a staged path. -/
def stFind (st : StageState) (p : List String) : Option SKind :=
  (st.find? (fun x => x.1 == p)).map (·.2)

/-- Remove any entry at a staged path. -/
def stRemove (st : StageState) (p : List String) : StageState :=
  st.filter (fun x => x.1 != p)

/-- Put an entry at a staged path, replacing what was there. -/
def stInsert (st : StageState) (p : List String) (k : SKind) : StageState :=
  (p, k) :: stRemove st p

/-- Proper nonempty ancestors of a relative path, shortest first. -/
def properAncestors (p : List String) : List (List String) :=
  (List.range p.length).filterMap (fun i => if i = 0 then none else some (p.take i))

/-- One `mkdir(exist_ok=True)` step: an existing directory is fine, an
existing non-directory raises `FileExistsError`. -/
def mkdirOne (st : StageState) (p : List String) : Except StageErr StageState :=
  match stFind st p with
  | some .dir => .ok st
  | some _ => .error .fileExists
  | none => .ok (stInsert st p .dir)

/-- Create a list of directories in order (`mkdir(parents=True, exist_ok=True)`). -/
def mkdirAll (st : StageState) (ps : List (List String)) : Except StageErr StageState :=
  match ps with
  | [] => .ok st
  | p :: rest =>
    match mkdirOne st p with
    | .error e => .error e
    | .ok st₁ => mkdirAll st₁ rest

/-- Line 153: `dst_path.mkdir(parents=True, exist_ok=True)` — parents, then
the directory itself. -/
def mkdirAt (st : StageState) (p : List String) : Except StageErr StageState :=
  mkdirAll st (properAncestors p ++ [p])

/-- Line 156: `dst_path.parent.mkdir(parents=True, exist_ok=True)`. -/
def mkdirParentsOf (st : StageState) (p : List String) : Except StageErr StageState :=
  mkdirAll st (properAncestors p)

/-- Lines 158-162: the symlink staging step.  The guard
`dst_path.exists() or dst_path.is_symlink()` is true exactly when something
occupies the staged path; `dst_path.unlink()` removes a file or a symlink
but raises `IsADirectoryError` on a directory; `os.symlink` then recreates
the link with the raw target read by `os.readlink`. -/
def stageSymlinkStep (st : StageState) (p : List String) (target : String) :
    Except StageErr StageState :=
  match stFind st p with
  | none => .ok (stInsert st p (.symlink target))
  | some .dir => .error .isADirectory
  | some _ => .ok (stInsert st p (.symlink target))

/-- Lines 164-165: `copy2(src_path, dst_path)`; copying over a directory
raises `IsADirectoryError`, otherwise the destination is (over)written. -/
def copyStep (st : StageState) (p : List String) : Except StageErr StageState :=
  match stFind st p with
  | some .dir => .error .isADirectory
  | _ => .ok (stInsert st p .file)

/-- One iteration of the staging loop, lines 143-168.  `src_path.is_dir()`
is tested first and follows symlinks, so both real directories and symlinks
resolving to directories take the `mkdir` branch; only then the parent is
created and `is_symlink()` / `is_file()` dispatch, anything else is
skipped. -/
def stageEntry (st : StageState) (e : Entry) : Except StageErr StageState :=
  match e.kind with
  | .dir => mkdirAt st e.path
  | .symlinkToDir _ => mkdirAt st e.path
  | .symlinkOther target =>
    match mkdirParentsOf st e.path with
    | .error err => .error err
    | .ok st₁ => stageSymlinkStep st₁ e.path target
  | .file =>
    match mkdirParentsOf st e.path with
    | .error err => .error err
    | .ok st₁ => copyStep st₁ e.path
  | .other =>
    match mkdirParentsOf st e.path with
    | .error err => .error err
    | .ok st₁ => .ok st₁

/-! ### `create_archive` as a whole -/

/-- Errors of `create_archive`.  The first three are the `ValueError`s of
the validation prologue (lines 114-131); `io` stands for an `OSError`
escaping from staging or packing. -/
inductive ArchiveErr where
  | invalidDir : ArchiveErr
  | invalidFormat (value : String) (supported : List String) : ArchiveErr
  | invalidName : ArchiveErr
  | io (stage : String) : ArchiveErr
deriving DecidableEq, Repr

/-- Validation errors are the ones raised before any side effect. -/
def ArchiveErr.isValidation : ArchiveErr → Bool
  | .io _ => false
  | _ => true

/-- The supported-format registry `shutil.get_archive_formats()` with the
standard compression modules available. -/
def supportedFormats : List String :=
  ["bztar", "gztar", "tar", "xztar", "zip"]

/-- File extension `shutil.make_archive` appends for each format. -/
def extOf (fmt : String) : String :=
  if fmt = "zip" then ".zip"
  else if fmt = "tar" then ".tar"
  else if fmt = "gztar" then ".tar.gz"
  else if fmt = "bztar" then ".tar.bz2"
  else if fmt = "xztar" then ".tar.xz"
  else ""

/-- Python `PurePath(s).name`: the last component after dropping empty and
`"."` components of the `/`-split (the empty string when none remains). -/
def pathName (s : String) : String :=
  String.mk ((((splitSlash s.data).filter (fun c => !c.isEmpty && c != ['.'])).getLast?).getD [])

/-- Python `PurePath(s).stem`: the name with everything from the last dot
removed, provided that dot is neither the first nor the last character. -/
def pyStem (s : String) : String :=
  match ((List.range s.data.length).filter (fun i => s.data.getD i ' ' == '.')).getLast? with
  | some i => if 0 < i && i + 1 < s.data.length then String.mk (s.data.take i) else s
  | none => s

/-- Lines 126-131: derive the archive base name.  Without an explicit name
it is `f"{utils.utctimestamp()}_{dir_path.stem}"`; an explicit name must
satisfy `Path(archive_name).name == archive_name`. -/
def computeBaseName (ts dirName : String) (archiveName : Option String) :
    Except ArchiveErr String :=
  match archiveName with
  | none => .ok (ts ++ "_" ++ pyStem dirName)
  | some n => if pathName n = n then .ok n else .error .invalidName

/-- Inputs of one `create_archive` call.  `srcExists`/`srcIsDir` are what
`dir_path.exists()` / `dir_path.is_dir()` report for the resolved source;
`dirName` is its final component; `fs` enumerates its entries (in the
arbitrary order the filesystem reports them); `ts` is the frozen value of
`utils.utctimestamp()`. -/
structure Args where
  srcExists : Bool
  srcIsDir : Bool
  dirName : String
  fs : List Entry
  archiveName : Option String
  patterns : List String
  format : String
  ts : String

/-- Ambient I/O nondeterminism: whether staging step `i` or the packer
raises an `OSError` (disk full, permissions, ...). -/
structure Oracle where
  stageFail : Nat → Bool
  packFail : Bool

/-- Observable side effects of one call: temporary directories created and
removed, and the produced archives together with the staged tree each one
packs. -/
structure RunLog where
  tmpCreated : Nat
  tmpRemoved : Nat
  archives : List (String × StageState)
deriving DecidableEq, Repr

/-- The log of a call with no side effects. -/
def cleanLog : RunLog :=
  ⟨0, 0, []⟩

/-- The staging loop over the sorted match list, threading the staging tree
and consulting the I/O oracle before each entry. -/
def stageAll (o : Oracle) : List Entry → Nat → StageState → Except ArchiveErr StageState
  | [], _, st => .ok st
  | e :: rest, i, st =>
    if o.stageFail i then .error (.io "staging")
    else
      match stageEntry st e with
      | .error _ => .error (.io "staging")
      | .ok st₁ => stageAll o rest (i + 1) st₁

/-- Shallow embedding of `create_archive` (lines 107-176).  Validation in
source order; then matching and sorting; then the
`tempfile.TemporaryDirectory` block: the directory is created, staging and
packing run inside it, and it is removed on every exit path of the block.
On success the archive is written at `base_name` plus the format extension,
relative to the current working directory, and that path is returned. -/
def createArchiveRun (a : Args) (o : Oracle) : Except ArchiveErr String × RunLog :=
  if !(a.srcExists && a.srcIsDir) then (.error .invalidDir, cleanLog)
  else
    let pats := effectivePatterns a.patterns
    let fmt := pyLower a.format
    if !(supportedFormats.contains fmt) then
      (.error (.invalidFormat fmt supportedFormats), cleanLog)
    else
      match computeBaseName a.ts a.dirName a.archiveName with
      | .error e => (.error e, cleanLog)
      | .ok base =>
        match stageAll o (orderedMatchList a.fs pats) 0 [] with
        | .error e => (.error e, ⟨1, 1, []⟩)
        | .ok tree =>
          if o.packFail then (.error (.io "packing"), ⟨1, 1, []⟩)
          else
            let ap := base ++ extOf fmt
            (.ok ap, ⟨1, 1, [(ap, tree)]⟩)

/-- A path string is absolute exactly when it starts with `'/'`. -/
def isAbsolutePath (s : String) : Bool :=
  s.data.headD ' ' == '/'

/-! ### `clear_cache` (core.py lines 36-77) -/

/-- Constant `CACHE_DIRECTORIES`. -/
def cacheDirectories : List String :=
  ["__pycache__", ".pytest_cache", ".ipynb_checkpoints", ".ruff_cache", "spark-warehouse"]

/-- Constant `CACHE_FILE_EXTENSIONS`. -/
def cacheFileExtensions : List String :=
  ["*.py[co]", ".coverage", ".coverage.*"]

/-- Python `str(path)` for an entry below the resolved root. -/
def absPathStr (root : String) (p : List String) : String :=
  root ++ "/" ++ joinPath p

/-- Character list of the marker `"venv"`. -/
def venvMarker : List Char :=
  ['v', 'e', 'n', 'v']

/-- The skip test of lines 67 and 74: `"venv" in str(path)` — a plain
substring test on the whole absolute path string. -/
def venvSkip (root : String) (p : List String) : Bool :=
  containsChars venvMarker (absPathStr root p).data

/-- One `rglob` match of the directory loop, lines 66-69: entry `t` matches
the cache directory name, its path string lacks the marker, and
`shutil.rmtree(t)` removes everything whose path extends `t.path`. -/
def coversB (root : String) (name : String) (t : Entry) (p : List String) : Bool :=
  rglobMatch name t.path && !venvSkip root t.path && t.path.isPrefixOf p

/-- Whether a path is inside some directory the sweep for `name` removes. -/
def dirHit (root : String) (name : String) (fs : List Entry) (p : List String) : Bool :=
  fs.any (fun t => coversB root name t p)

/-- One directory sweep (lines 65-70) for one name of `cache_directories`:
every `rglob` match whose path string lacks the marker is passed to
`shutil.rmtree`, which removes the matched directory and everything below
it. -/
def sweepDirPhase (root : String) (name : String) (fs : List Entry) : List Entry :=
  fs.filter (fun e => !dirHit root name fs e.path)

/-- One file sweep (lines 72-77) for one pattern of `cache_file_extensions`:
every remaining `rglob` match whose path string lacks the marker is
`unlink`ed. -/
def sweepFilePhase (root : String) (pat : String) (fs : List Entry) : List Entry :=
  fs.filter (fun e => !(rglobMatch pat e.path && !venvSkip root e.path))

/-- Shallow embedding of `clear_cache`: the directory loop runs over all
cache directory names, then the file loop over all cache file patterns,
each scanning the filesystem left by the previous sweeps.  The result is
the set of entries that survive. -/
def clearCacheFS (root : String) (fs : List Entry) : List Entry :=
  let fs₁ := cacheDirectories.foldl (fun acc name => sweepDirPhase root name acc) fs
  cacheFileExtensions.foldl (fun acc pat => sweepFilePhase root pat acc) fs₁

/-- Coverage by the sweeps for a list of directory names over a filesystem. -/
def coveredBy (root : String) (names : List String) (fs : List Entry) (e : Entry) : Bool :=
  fs.any (fun t => names.any (fun name => coversB root name t e.path))

/-- An entry is doomed by the directory sweeps exactly when some entry on
or above it matches a cache directory name and its path string lacks the
marker. -/
def dirDoomed (root : String) (fs : List Entry) (e : Entry) : Bool :=
  coveredBy root cacheDirectories fs e

/-- An entry is doomed by the file sweeps exactly when it matches a cache
file pattern and its path string lacks the marker. -/
def fileDoomed (root : String) (e : Entry) : Bool :=
  cacheFileExtensions.any (fun pat => rglobMatch pat e.path) && !venvSkip root e.path

/-- The claim's reading of the skip rule: the marker appears as a whole
path segment. -/
def hasVenvSegment (p : List String) : Bool :=
  p.any (fun c => c == "venv")

/-! ### `confirm` (core.py lines 80-104) -/

/-- The affirmative replies of `confirm`. -/
def trueTokens : List String :=
  ["y", "yes", "t", "true", "on", "1"]

/-- The negative replies of `confirm`. -/
def falseTokens : List String :=
  ["n", "no", "f", "false", "off", "0"]

/-- The `while True` loop of `confirm` over the sequence of input lines:
each reply is stripped and lowercased; an empty reply returns
`default == "yes"` when a default is set and re-prompts otherwise; a true
token returns `True`, a false token returns `False`; anything else
re-prompts.  `none` models running out of input. -/
def confirmLoop (default : Option String) : List String → Option Bool
  | [] => none
  | line :: rest =>
    let reply := pyLower (pyStrip line)
    if reply = "" then
      match default with
      | some d => some (d == "yes")
      | none => confirmLoop default rest
    else if trueTokens.contains reply then some true
    else if falseTokens.contains reply then some false
    else confirmLoop default rest

/-- Shallow embedding of `confirm`: the `default` argument is validated
first (lines 82-83), then the reply loop runs. -/
def confirm (default : Option String) (lines : List String) :
    Except String (Option Bool) :=
  if default = none ∨ default = some "yes" ∨ default = some "no" then
    .ok (confirmLoop default lines)
  else .error "invalid default"

/-- A reply is decisive when the loop stops at it: empty with a default
set, or a recognized true/false token. -/
def decisiveReply (default : Option String) (line : String) : Bool :=
  let reply := pyLower (pyStrip line)
  (reply == "" && default.isSome) ||
    trueTokens.contains reply || falseTokens.contains reply

/-- The answer a decisive reply produces. -/
def interpretReply (default : Option String) (line : String) : Bool :=
  let reply := pyLower (pyStrip line)
  if reply = "" then default == some "yes" else trueTokens.contains reply

/-! ### Properties of the path string form -/

theorem joinPath_data_cons₂ (c d : String) (rest : List String) :
    (joinPath (c :: d :: rest)).data = c.data ++ '/' :: (joinPath (d :: rest)).data := by
  show ((c ++ "/") ++ joinPath (d :: rest)).data = _
  rw [String.data_append, String.data_append]
  simp

theorem slash_mem_join (c d : String) (rest : List String) :
    '/' ∈ (joinPath (c :: d :: rest)).data := by
  rw [joinPath_data_cons₂]; simp

theorem append_slash_inj : ∀ (a : List Char) {b x y : List Char},
    '/' ∉ a → '/' ∉ b → a ++ '/' :: x = b ++ '/' :: y → a = b ∧ x = y := by
  intro a
  induction a with
  | nil =>
    intro b x y _ hb h
    cases b with
    | nil => simp at h; exact ⟨rfl, h⟩
    | cons d bs =>
      simp at h
      cases h.1
      exact absurd (List.mem_cons_self _ _) hb
  | cons c as ih =>
    intro b x y ha hb h
    cases b with
    | nil =>
      simp at h
      cases h.1
      exact absurd (List.mem_cons_self _ _) ha
    | cons d bs =>
      simp at h
      have ha' : '/' ∉ as := fun hm => ha (List.mem_cons_of_mem _ hm)
      have hb' : '/' ∉ bs := fun hm => hb (List.mem_cons_of_mem _ hm)
      obtain ⟨h₁, h₂⟩ := ih ha' hb' h.2
      exact ⟨by rw [h.1, h₁], h₂⟩

theorem validPath_head {c : String} {p : List String}
    (h : validPath (c :: p) = true) : validComp c = true := by
  simp [validPath] at h
  simp [h.1]

theorem validPath_cons_tail {c c₂ : String} {p : List String}
    (h : validPath (c :: c₂ :: p) = true) : validPath (c₂ :: p) = true := by
  simp [validPath] at h ⊢
  exact h.2

theorem validComp_no_slash {c : String} (h : validComp c = true) : '/' ∉ c.data := by
  simp [validComp] at h
  exact h.2

/-- The string form of a valid relative path determines its components:
distinct paths have distinct sort keys. -/
theorem joinPath_inj : ∀ (p : List String) {q : List String},
    validPath p = true → validPath q = true → joinPath p = joinPath q → p = q := by
  intro p
  induction p with
  | nil => intro q hp _ _; simp [validPath] at hp
  | cons c p' ih =>
    intro q hp hq h
    cases q with
    | nil => simp [validPath] at hq
    | cons d q' =>
      cases p' with
      | nil =>
        cases q' with
        | nil =>
          have : c = d := h
          rw [this]
        | cons e q'' =>
          exfalso
          have hd := congrArg String.data h
          have hmem : '/' ∈ c.data := by
            rw [show joinPath [c] = c from rfl] at hd
            rw [hd]
            exact slash_mem_join d e q''
          exact validComp_no_slash (validPath_head hp) hmem
      | cons c₂ p'' =>
        cases q' with
        | nil =>
          exfalso
          have hd := congrArg String.data h
          have hmem : '/' ∈ d.data := by
            rw [show joinPath [d] = d from rfl] at hd
            rw [← hd]
            exact slash_mem_join c c₂ p''
          exact validComp_no_slash (validPath_head hq) hmem
        | cons d₂ q'' =>
          have hd := congrArg String.data h
          rw [joinPath_data_cons₂, joinPath_data_cons₂] at hd
          obtain ⟨h₁, h₂⟩ :=
            append_slash_inj c.data (validComp_no_slash (validPath_head hp))
              (validComp_no_slash (validPath_head hq)) hd
          have hcd : c = d := String.ext h₁
          have htail : joinPath (c₂ :: p'') = joinPath (d₂ :: q'') := String.ext h₂
          have := ih (validPath_cons_tail hp) (validPath_cons_tail hq) htail
          rw [hcd, this]

theorem getLast_getD_no_slash :
    ∀ (l : List (List Char)), (∀ c ∈ l, '/' ∉ c) → '/' ∉ l.getLast?.getD [] := by
  intro l hl
  rcases hm : l.getLast? with _ | c
  · simp
  · simpa using hl c (List.mem_of_mem_getLast? hm)

theorem pathName_no_slash (s : String) : '/' ∉ (pathName s).data := by
  show '/' ∉ (((splitSlash s.data).filter (fun c => !c.isEmpty && c != ['.'])).getLast?).getD []
  refine getLast_getD_no_slash _ ?_
  intro c hc
  exact splitSlash_no_slash s.data c (List.mem_filter.mp hc).1

/-! ### The match-and-sort pipeline -/

/-- Realistic source enumeration: entry paths are pairwise distinct valid
relative paths (a filesystem never reports the same path twice). -/
def pathsValid (fs : List Entry) : Prop :=
  (fs.map Entry.path).Nodup ∧ ∀ e ∈ fs, validPath e.path = true

instance : DecidablePred pathsValid :=
  fun fs => inferInstanceAs (Decidable (_ ∧ _))

theorem matchedList_sublist (fs : List Entry) (pats : List String) :
    (matchedList fs pats).Sublist fs :=
  List.filter_sublist fs

theorem matchedList_pairwise_keyNe {fs : List Entry} (pats : List String)
    (h : pathsValid fs) :
    (matchedList fs pats).Pairwise (fun a b => entryKey a ≠ entryKey b) := by
  have hpw : fs.Pairwise (fun a b => a.path ≠ b.path) :=
    List.pairwise_map.mp h.1
  have hfilter : (matchedList fs pats).Pairwise (fun a b => a.path ≠ b.path) :=
    List.Pairwise.sublist (matchedList_sublist fs pats) hpw
  refine hfilter.imp_of_mem ?_
  intro a b ha hb hne hkey
  have ha' : a ∈ fs := (matchedList_sublist fs pats).subset ha
  have hb' : b ∈ fs := (matchedList_sublist fs pats).subset hb
  have hjoin : joinPath a.path = joinPath b.path := String.ext hkey
  exact hne (joinPath_inj a.path (h.2 a ha') (h.2 b hb') hjoin)

/-- C1: for every existing directory (a source enumeration with pairwise
distinct valid entry paths), every pattern list, and a frozen timestamp,
two runs of the match-and-sort stage of `create_archive` over the same
directory contents — even when the filesystem (or the Python `set`
iteration) enumerates the entries in different orders — produce the same
sorted member list: the ordering is a deterministic function of the
inputs. -/
theorem create_archive_order_deterministic (fs₁ fs₂ : List Entry) (pats : List String)
    (hperm : fs₁.Perm fs₂) (hv : pathsValid fs₁) :
    orderedMatchList fs₁ pats = orderedMatchList fs₂ pats := by
  have hm : (matchedList fs₁ pats).Perm (matchedList fs₂ pats) := hperm.filter _
  have hs₁ : List.Sorted entryLe (orderedMatchList fs₁ pats) :=
    List.sorted_insertionSort entryLe _
  have hs₂ : List.Sorted entryLe (orderedMatchList fs₂ pats) :=
    List.sorted_insertionSort entryLe _
  have hsymm : ∀ {x y : Entry}, entryKey x ≠ entryKey y → entryKey y ≠ entryKey x :=
    fun h => h.symm
  have hpermS₁ : (orderedMatchList fs₁ pats).Perm (matchedList fs₁ pats) :=
    List.perm_insertionSort entryLe _
  have hpermS₂ : (orderedMatchList fs₂ pats).Perm (matchedList fs₂ pats) :=
    List.perm_insertionSort entryLe _
  have hne₁ : (matchedList fs₁ pats).Pairwise (fun a b => entryKey a ≠ entryKey b) :=
    matchedList_pairwise_keyNe pats hv
  have hne₂ : (matchedList fs₂ pats).Pairwise (fun a b => entryKey a ≠ entryKey b) :=
    (hm.pairwise_iff hsymm).mp hne₁
  have hneS₁ : (orderedMatchList fs₁ pats).Pairwise (fun a b => entryKey a ≠ entryKey b) :=
    (hpermS₁.pairwise_iff hsymm).mpr hne₁
  have hneS₂ : (orderedMatchList fs₂ pats).Pairwise (fun a b => entryKey a ≠ entryKey b) :=
    (hpermS₂.pairwise_iff hsymm).mpr hne₂
  have hstrict₁ : List.Sorted entryLt (orderedMatchList fs₁ pats) :=
    (hs₁.and hneS₁).imp (fun hab => lt_of_le_of_ne hab.1 hab.2)
  have hstrict₂ : List.Sorted entryLt (orderedMatchList fs₂ pats) :=
    (hs₂.and hneS₂).imp (fun hab => lt_of_le_of_ne hab.1 hab.2)
  have hchain : (orderedMatchList fs₁ pats).Perm (orderedMatchList fs₂ pats) :=
    hpermS₁.trans (hm.trans hpermS₂.symm)
  exact List.eq_of_perm_of_sorted hchain hstrict₁ hstrict₂

theorem create_archive_order_deterministic_witness :
    (([⟨["b"], EKind.file⟩, ⟨["a"], EKind.dir⟩] : List Entry).Perm
        [⟨["a"], EKind.dir⟩, ⟨["b"], EKind.file⟩] ∧
      pathsValid [⟨["b"], EKind.file⟩, ⟨["a"], EKind.dir⟩]) ∧
      orderedMatchList [⟨["b"], EKind.file⟩, ⟨["a"], EKind.dir⟩] ["**/*"] =
        orderedMatchList [⟨["a"], EKind.dir⟩, ⟨["b"], EKind.file⟩] ["**/*"] :=
  ⟨⟨by decide, by decide⟩,
    create_archive_order_deterministic _ _ _ (by decide) (by decide)⟩

/-- C2: for every source enumeration and pattern list (defaulting to the
single pattern `"**/*"` when empty), the set of entries staged for the
archive is exactly the deduplicated union over all patterns of the `rglob`
matches, with nothing removed except entries that are not a directory,
regular file, or symlink. -/
theorem create_archive_member_set (fs : List Entry) (pats : List String) (e : Entry)
    (hnd : fs.Nodup) :
    (e ∈ stagedSelection (orderedMatchList fs (effectivePatterns pats)) ↔
       e ∈ fs ∧ (effectivePatterns pats).any (fun pat => rglobMatch pat e.path) = true ∧
         stagedKind e.kind = true) ∧
    (orderedMatchList fs (effectivePatterns pats)).Nodup := by
  constructor
  · unfold stagedSelection orderedMatchList matchedList
    rw [List.mem_filter, (List.perm_insertionSort entryLe _).mem_iff, List.mem_filter]
    tauto
  · unfold orderedMatchList
    exact ((List.perm_insertionSort entryLe _).nodup_iff).mpr (hnd.filter _)

theorem create_archive_member_set_witness :
    (([⟨["a"], EKind.file⟩, ⟨["b"], EKind.other⟩] : List Entry).Nodup) ∧
      ((⟨["a"], EKind.file⟩ : Entry) ∈
          stagedSelection (orderedMatchList [⟨["a"], EKind.file⟩, ⟨["b"], EKind.other⟩]
            (effectivePatterns [])) ↔
        (⟨["a"], EKind.file⟩ : Entry) ∈ ([⟨["a"], EKind.file⟩, ⟨["b"], EKind.other⟩] : List Entry) ∧
          (effectivePatterns []).any (fun pat => rglobMatch pat ["a"]) = true ∧
          stagedKind EKind.file = true) :=
  ⟨by decide,
    (create_archive_member_set [⟨["a"], EKind.file⟩, ⟨["b"], EKind.other⟩] []
      ⟨["a"], EKind.file⟩ (by decide)).1⟩

/-! ### Error handling of `create_archive` -/

theorem stageAll_error {o : Oracle} :
    ∀ {l : List Entry} {i : Nat} {st : StageState} {e : ArchiveErr},
      stageAll o l i st = .error e → e = ArchiveErr.io "staging" := by
  intro l
  induction l with
  | nil => intro i st e h; simp [stageAll] at h
  | cons x rest ih =>
    intro i st e h
    unfold stageAll at h
    split at h
    · exact (Except.error.inj h).symm
    · split at h
      · exact (Except.error.inj h).symm
      · exact ih h

/-- C3: on every call to `create_archive` and every I/O outcome the
temporary staging directory is removed exactly as often as it is created
(the `TemporaryDirectory` block tears it down on every exit path, also when
staging or packing raises), and a validation failure happens before any
temporary directory or archive is created, so no temporary directory ever
leaks. -/
theorem create_archive_tmpdir_no_leak (a : Args) (o : Oracle) :
    (createArchiveRun a o).2.tmpRemoved = (createArchiveRun a o).2.tmpCreated ∧
      (∀ e, (createArchiveRun a o).1 = .error e → e.isValidation = true →
        (createArchiveRun a o).2 = cleanLog) := by
  unfold createArchiveRun
  by_cases h₁ : (!(a.srcExists && a.srcIsDir)) = true
  · rw [if_pos h₁]
    exact ⟨rfl, fun e _ _ => rfl⟩
  · rw [if_neg h₁]
    by_cases h₂ : (!(supportedFormats.contains (pyLower a.format))) = true
    · simp only [if_pos h₂]
      exact ⟨by trivial, fun e _ _ => by trivial⟩
    · simp only [if_neg h₂]
      rcases hb : computeBaseName a.ts a.dirName a.archiveName with e₀ | base
      · simp only [hb]
        exact ⟨by trivial, fun e _ _ => by trivial⟩
      · simp only [hb]
        rcases hst : stageAll o (orderedMatchList a.fs (effectivePatterns a.patterns)) 0 []
          with e₁ | tree
        · simp only [hst]
          refine ⟨by trivial, fun e he hv => ?_⟩
          exfalso
          cases Except.error.inj he
          rw [stageAll_error hst] at hv
          simp [ArchiveErr.isValidation] at hv
        · simp only [hst]
          by_cases hp : o.packFail = true
          · simp only [if_pos hp]
            refine ⟨by trivial, fun e he hv => ?_⟩
            exfalso
            cases Except.error.inj he
            simp [ArchiveErr.isValidation] at hv
          · simp only [if_neg hp]
            refine ⟨by trivial, fun e he _ => ?_⟩
            exact absurd he (by simp)

theorem create_archive_tmpdir_no_leak_witness :
    ((createArchiveRun ⟨false, true, "d", [], none, [], "zip", "t"⟩
          ⟨fun _ => false, false⟩).1 = .error .invalidDir ∧
        ArchiveErr.isValidation .invalidDir = true) ∧
      (createArchiveRun ⟨false, true, "d", [], none, [], "zip", "t"⟩
          ⟨fun _ => false, false⟩).2 = cleanLog :=
  ⟨⟨rfl, rfl⟩,
    (create_archive_tmpdir_no_leak ⟨false, true, "d", [], none, [], "zip", "t"⟩
        ⟨fun _ => false, false⟩).2 .invalidDir rfl rfl⟩

/-- C7: for every `archive_name` containing a path separator,
`create_archive` fails with a validation error raised before any staging,
produces no archive file, and has no side effects (the run log stays
clean). -/
theorem create_archive_bad_name_rejected (a : Args) (o : Oracle) (n : String)
    (hn : a.archiveName = some n) (hs : '/' ∈ n.data) :
    ∃ e, createArchiveRun a o = (.error e, cleanLog) ∧ e.isValidation = true := by
  have hne : pathName n ≠ n := by
    intro heq
    refine pathName_no_slash n ?_
    rw [heq]
    exact hs
  have hbase : computeBaseName a.ts a.dirName a.archiveName = .error .invalidName := by
    rw [hn]
    show (if pathName n = n then (Except.ok n : Except ArchiveErr String)
      else .error .invalidName) = .error .invalidName
    rw [if_neg hne]
  unfold createArchiveRun
  by_cases h₁ : (!(a.srcExists && a.srcIsDir)) = true
  · rw [if_pos h₁]
    exact ⟨.invalidDir, rfl, rfl⟩
  · rw [if_neg h₁]
    by_cases h₂ : (!(supportedFormats.contains (pyLower a.format))) = true
    · simp only [if_pos h₂]
      exact ⟨.invalidFormat (pyLower a.format) supportedFormats, rfl, rfl⟩
    · simp only [if_neg h₂, hbase]
      exact ⟨.invalidName, rfl, rfl⟩

theorem create_archive_bad_name_rejected_witness :
    ((Args.archiveName ⟨true, true, "d", [], some "a/b", [], "zip", "t"⟩ = some "a/b") ∧
        '/' ∈ ("a/b" : String).data) ∧
      ∃ e, createArchiveRun ⟨true, true, "d", [], some "a/b", [], "zip", "t"⟩
          ⟨fun _ => false, false⟩ = (.error e, cleanLog) ∧ e.isValidation = true :=
  ⟨⟨rfl, by decide⟩,
    create_archive_bad_name_rejected ⟨true, true, "d", [], some "a/b", [], "zip", "t"⟩
      ⟨fun _ => false, false⟩ "a/b" rfl (by decide)⟩

/-- C8: for every format value whose lowercasing is outside the supported
set, a call that reaches format validation (source exists and is a
directory) fails with a validation error carrying the invalid value and
the supported set, with no side effects. -/
theorem create_archive_bad_format_rejected (a : Args) (o : Oracle)
    (h₁ : a.srcExists = true) (h₂ : a.srcIsDir = true)
    (h₃ : supportedFormats.contains (pyLower a.format) = false) :
    createArchiveRun a o =
      (.error (.invalidFormat (pyLower a.format) supportedFormats), cleanLog) := by
  have hc : (!(supportedFormats.contains (pyLower a.format))) = true := by
    rw [h₃]; rfl
  unfold createArchiveRun
  rw [h₁, h₂]
  rw [if_neg (by simp : ¬ ((!(true && true)) = true))]
  simp only [if_pos hc]

/-! ### The returned archive path and the default base name -/

theorem headD_append_ne {s t : String} (hs : '/' ∉ s.data)
    (ht : t.data.headD ' ' ≠ '/') : (s ++ t).data.headD ' ' ≠ '/' := by
  rw [String.data_append]
  rcases hd : s.data with _ | ⟨c, cs⟩
  · simpa using ht
  · have hc : c ≠ '/' := by
      intro h
      apply hs
      rw [hd, h]
      exact List.mem_cons_self _ _
    simpa using hc

theorem isAbsolutePath_eq_false {s : String} (h : s.data.headD ' ' ≠ '/') :
    isAbsolutePath s = false := by
  unfold isAbsolutePath
  simpa using h

theorem no_slash_append {s t : String} (hs : '/' ∉ s.data) (ht : '/' ∉ t.data) :
    '/' ∉ (s ++ t).data := by
  rw [String.data_append]
  simp [hs, ht]

theorem pyStem_cases (s : String) :
    pyStem s = s ∨ ∃ i, pyStem s = String.mk (s.data.take i) := by
  unfold pyStem
  split
  · split
    · right
      exact ⟨_, rfl⟩
    · left
      rfl
  · left
    rfl

theorem pyStem_no_slash {s : String} (h : '/' ∉ s.data) : '/' ∉ (pyStem s).data := by
  rcases pyStem_cases s with hc | ⟨i, hc⟩
  · rw [hc]
    exact h
  · rw [hc]
    intro hmem
    exact h ((List.take_sublist i s.data).subset hmem)

theorem extOf_headD : ∀ f ∈ supportedFormats, (extOf f).data.headD ' ' = '.' := by
  decide

theorem computeBaseName_ok {ts dirName : String} {an : Option String} {base : String}
    (h : computeBaseName ts dirName an = .ok base) :
    base = ts ++ "_" ++ pyStem dirName ∨ '/' ∉ base.data := by
  rcases an with _ | n
  · left
    exact (Except.ok.inj h).symm
  · right
    have h' : (if pathName n = n then (Except.ok n : Except ArchiveErr String)
        else .error .invalidName) = .ok base := h
    by_cases hne : pathName n = n
    · rw [if_pos hne] at h'
      have hbn : n = base := Except.ok.inj h'
      rw [← hbn]
      intro hmem
      apply pathName_no_slash n
      rw [hne]
      exact hmem
    · rw [if_neg hne] at h'
      cases h'

/-- C4 counterexample: a successful call returns `"out.zip"`, which is a
relative path (it does not start with a separator), so the returned value
is not the absolute path of the produced archive. -/
theorem create_archive_returns_relative_cex :
    (createArchiveRun ⟨true, true, "src", [], some "out", [], "zip", "t"⟩
        ⟨fun _ => false, false⟩).1 = .ok "out.zip" ∧
      isAbsolutePath "out.zip" = false :=
  ⟨rfl, by decide⟩

/-- C4 amended: for every successful call, the returned value is the base
name extended with the format extension — a path interpreted relative to
the current working directory and never absolute (the validated base name
starts with the separator-free timestamp or a separator-free explicit
name). -/
theorem create_archive_returns_relative (a : Args) (o : Oracle) (p : String)
    (hts : '/' ∉ a.ts.data) (hdn : '/' ∉ a.dirName.data)
    (hp : (createArchiveRun a o).1 = .ok p) :
    (∃ base, computeBaseName a.ts a.dirName a.archiveName = .ok base ∧
        p = base ++ extOf (pyLower a.format)) ∧
      isAbsolutePath p = false := by
  unfold createArchiveRun at hp
  by_cases h₁ : (!(a.srcExists && a.srcIsDir)) = true
  · rw [if_pos h₁] at hp
    exact absurd hp (by simp)
  · rw [if_neg h₁] at hp
    by_cases h₂ : (!(supportedFormats.contains (pyLower a.format))) = true
    · simp only [if_pos h₂] at hp
      exact absurd hp (by simp)
    · simp only [if_neg h₂] at hp
      have hmem : pyLower a.format ∈ supportedFormats := by
        have hc : supportedFormats.contains (pyLower a.format) = true := by
          revert h₂
          cases supportedFormats.contains (pyLower a.format) <;> simp
        simpa using hc
      rcases hb : computeBaseName a.ts a.dirName a.archiveName with e₀ | base
      · simp only [hb] at hp
        exact absurd hp (by simp)
      · simp only [hb] at hp
        rcases hst : stageAll o (orderedMatchList a.fs (effectivePatterns a.patterns)) 0 []
          with e₁ | tree
        · simp only [hst] at hp
          exact absurd hp (by simp)
        · simp only [hst] at hp
          by_cases hpk : o.packFail = true
          · simp only [if_pos hpk] at hp
            exact absurd hp (by simp)
          · simp only [if_neg hpk] at hp
            have hpe : base ++ extOf (pyLower a.format) = p := by
              simpa using hp
            refine ⟨⟨base, rfl, hpe.symm⟩, ?_⟩
            rw [← hpe]
            have hext : (extOf (pyLower a.format)).data.headD ' ' ≠ '/' := by
              rw [extOf_headD (pyLower a.format) hmem]
              decide
            apply isAbsolutePath_eq_false
            rcases computeBaseName_ok hb with hbase | hbase
            · rw [hbase]
              refine headD_append_ne ?_ hext
              refine no_slash_append (no_slash_append hts ?_) (pyStem_no_slash hdn)
              decide
            · exact headD_append_ne hbase hext

theorem create_archive_returns_relative_witness :
    (('/' ∉ ("t" : String).data ∧ '/' ∉ ("src" : String).data) ∧
        (createArchiveRun ⟨true, true, "src", [], some "out", [], "zip", "t"⟩
            ⟨fun _ => false, false⟩).1 = .ok "out.zip") ∧
      ((∃ base, computeBaseName "t" "src" (some "out") = .ok base ∧
          "out.zip" = base ++ extOf (pyLower "zip")) ∧
        isAbsolutePath "out.zip" = false) :=
  ⟨⟨⟨by decide, by decide⟩, rfl⟩,
    create_archive_returns_relative ⟨true, true, "src", [], some "out", [], "zip", "t"⟩
      ⟨fun _ => false, false⟩ "out.zip" (by decide) (by decide) rfl⟩

/-- C5 counterexample: a matched entry that is a symbolic link resolving to
a directory is staged by the `is_dir()` branch as a plain directory — no
symbolic link is recreated — and when a directory occupies the staged path
of a symlink, the collision `unlink()` raises `IsADirectoryError` instead
of removing it. -/
theorem create_archive_symlink_cex :
    stageEntry [] ⟨["l"], EKind.symlinkToDir "/t"⟩ = .ok [(["l"], SKind.dir)] ∧
      stageSymlinkStep [(["x"], SKind.dir)] ["x"] "t" = .error .isADirectory :=
  ⟨rfl, rfl⟩

/-- C5 amended: a matched symlink reported as a directory (`is_dir()`
true) is staged as a plain directory; a matched symlink not reported as a
directory has its raw target read and an equivalent link created at the
staged location, with a file or symlink occupant removed first; a
directory occupant makes the removal fail with `IsADirectoryError`. -/
theorem create_archive_symlink_staging (st : StageState) (p : List String) (target : String) :
    (∀ raw, stageEntry st ⟨p, EKind.symlinkToDir raw⟩ = mkdirAt st p) ∧
    (stFind st p = none →
      stageSymlinkStep st p target = .ok (stInsert st p (.symlink target))) ∧
    (∀ k, stFind st p = some k → k ≠ SKind.dir →
      stageSymlinkStep st p target = .ok (stInsert st p (.symlink target))) ∧
    (stFind st p = some SKind.dir →
      stageSymlinkStep st p target = .error .isADirectory) := by
  refine ⟨fun raw => rfl, ?_, ?_, ?_⟩
  · intro h
    unfold stageSymlinkStep
    rw [h]
  · intro k hk hne
    unfold stageSymlinkStep
    rw [hk]
    rcases k with _ | _ | t
    · exact absurd rfl hne
    · rfl
    · rfl
  · intro h
    unfold stageSymlinkStep
    rw [h]

theorem create_archive_symlink_staging_witness :
    (stFind [(["x"], SKind.file)] ["x"] = some SKind.file ∧ SKind.file ≠ SKind.dir) ∧
      stageSymlinkStep [(["x"], SKind.file)] ["x"] "t" =
        .ok (stInsert [(["x"], SKind.file)] ["x"] (.symlink "t")) :=
  ⟨⟨rfl, by decide⟩,
    (create_archive_symlink_staging [(["x"], SKind.file)] ["x"] "t").2.2.1
      SKind.file rfl (by decide)⟩

/-- C6 counterexample: for the directory name `"my.dir"` the synthesized
base uses `Path.stem`, which drops the final dot-suffix: the archive is
named with `"my"`, not with the final path component `"my.dir"`. -/
theorem create_archive_default_name_cex :
    (createArchiveRun ⟨true, true, "my.dir", [], none, [], "zip", "20250101010101"⟩
        ⟨fun _ => false, false⟩).1 = .ok "20250101010101_my.zip" ∧
      pyStem "my.dir" ≠ "my.dir" :=
  ⟨rfl, by decide⟩

/-- C6 amended: when `archive_name` is absent, the base name is the frozen
UTC timestamp, an underscore, and `Path.stem` of the source directory's
final component — the component with its final dot-suffix removed. -/
theorem create_archive_default_name (a : Args) (o : Oracle) (p : String)
    (hn : a.archiveName = none) (hp : (createArchiveRun a o).1 = .ok p) :
    p = (a.ts ++ "_" ++ pyStem a.dirName) ++ extOf (pyLower a.format) := by
  unfold createArchiveRun at hp
  by_cases h₁ : (!(a.srcExists && a.srcIsDir)) = true
  · rw [if_pos h₁] at hp
    exact absurd hp (by simp)
  · rw [if_neg h₁] at hp
    by_cases h₂ : (!(supportedFormats.contains (pyLower a.format))) = true
    · simp only [if_pos h₂] at hp
      exact absurd hp (by simp)
    · simp only [if_neg h₂] at hp
      have hbase : computeBaseName a.ts a.dirName a.archiveName =
          .ok (a.ts ++ "_" ++ pyStem a.dirName) := by
        rw [hn]
        rfl
      simp only [hbase] at hp
      rcases hst : stageAll o (orderedMatchList a.fs (effectivePatterns a.patterns)) 0 []
        with e₁ | tree
      · simp only [hst] at hp
        exact absurd hp (by simp)
      · simp only [hst] at hp
        by_cases hpk : o.packFail = true
        · simp only [if_pos hpk] at hp
          exact absurd hp (by simp)
        · simp only [if_neg hpk] at hp
          have := hp
          simpa using this.symm

theorem create_archive_default_name_witness :
    (Args.archiveName ⟨true, true, "my.dir", [], none, [], "zip", "20250101010101"⟩ = none ∧
        (createArchiveRun ⟨true, true, "my.dir", [], none, [], "zip", "20250101010101"⟩
            ⟨fun _ => false, false⟩).1 = .ok "20250101010101_my.zip") ∧
      "20250101010101_my.zip" =
        ("20250101010101" ++ "_" ++ pyStem "my.dir") ++ extOf (pyLower "zip") :=
  ⟨⟨rfl, rfl⟩,
    create_archive_default_name ⟨true, true, "my.dir", [], none, [], "zip", "20250101010101"⟩
      ⟨fun _ => false, false⟩ "20250101010101_my.zip" rfl rfl⟩

theorem create_archive_bad_format_rejected_witness :
    (Args.srcExists ⟨true, true, "d", [], none, [], "RAR", "t"⟩ = true ∧
        Args.srcIsDir ⟨true, true, "d", [], none, [], "RAR", "t"⟩ = true ∧
        supportedFormats.contains (pyLower "RAR") = false) ∧
      createArchiveRun ⟨true, true, "d", [], none, [], "RAR", "t"⟩ ⟨fun _ => false, false⟩ =
        (.error (.invalidFormat (pyLower "RAR") supportedFormats), cleanLog) :=
  ⟨⟨rfl, rfl, by decide⟩,
    create_archive_bad_format_rejected ⟨true, true, "d", [], none, [], "RAR", "t"⟩
      ⟨fun _ => false, false⟩ rfl rfl (by decide)⟩

/-! ### `clear_cache`: which entries the sweeps delete -/

theorem coversB_trans {root name : String} {t t' : Entry} {p : List String}
    (h₁ : coversB root name t' t.path = true) (h₂ : t.path.isPrefixOf p = true) :
    coversB root name t' p = true := by
  unfold coversB at h₁ ⊢
  simp only [Bool.and_eq_true] at h₁ ⊢
  refine ⟨h₁.1, ?_⟩
  exact List.isPrefixOf_iff_prefix.mpr
    (List.IsPrefix.trans (List.isPrefixOf_iff_prefix.mp h₁.2) (List.isPrefixOf_iff_prefix.mp h₂))

theorem covered_cons (root n : String) (ns : List String) (fs : List Entry) (e : Entry) :
    coveredBy root (n :: ns) fs e = true ↔
      (dirHit root n fs e.path = true ∨
        coveredBy root ns (sweepDirPhase root n fs) e = true) := by
  constructor
  · intro h
    simp only [coveredBy, List.any_eq_true] at h
    obtain ⟨t, ht, name, hnm, hc⟩ := h
    rcases List.mem_cons.mp hnm with hn' | hn'
    · left
      simp only [dirHit, List.any_eq_true]
      exact ⟨t, ht, hn' ▸ hc⟩
    · by_cases hg : dirHit root n fs t.path = true
      · left
        simp only [dirHit, List.any_eq_true] at hg ⊢
        obtain ⟨t', ht', hc'⟩ := hg
        have hpre : t.path.isPrefixOf e.path = true := by
          have hc₂ := hc
          unfold coversB at hc₂
          simp only [Bool.and_eq_true] at hc₂
          exact hc₂.2
        exact ⟨t', ht', coversB_trans hc' hpre⟩
      · right
        simp only [coveredBy, List.any_eq_true]
        refine ⟨t, ?_, name, hn', hc⟩
        simp only [sweepDirPhase, List.mem_filter]
        exact ⟨ht, by simpa using hg⟩
  · intro h
    rcases h with h | h
    · simp only [dirHit, List.any_eq_true] at h
      obtain ⟨t, ht, hc⟩ := h
      simp only [coveredBy, List.any_eq_true]
      exact ⟨t, ht, n, List.mem_cons_self _ _, hc⟩
    · simp only [coveredBy, List.any_eq_true] at h ⊢
      obtain ⟨t, ht, name, hnm, hc⟩ := h
      have ht' : t ∈ fs := by
        simp only [sweepDirPhase, List.mem_filter] at ht
        exact ht.1
      exact ⟨t, ht', name, List.mem_cons_of_mem _ hnm, hc⟩

theorem sweep_fold (root : String) :
    ∀ (names : List String) (fs : List Entry),
      names.foldl (fun acc name => sweepDirPhase root name acc) fs =
        fs.filter (fun e => !coveredBy root names fs e) := by
  intro names
  induction names with
  | nil =>
    intro fs
    have hany : ∀ (l : List Entry), (l.any fun _ => false) = false := by
      intro l
      induction l with
      | nil => rfl
      | cons a t iht => simp [iht]
    simp [coveredBy, hany]
  | cons n ns ih =>
    intro fs
    rw [List.foldl_cons, ih (sweepDirPhase root n fs)]
    show List.filter (fun e => !coveredBy root ns (sweepDirPhase root n fs) e)
        (List.filter (fun e => !dirHit root n fs e.path) fs) = _
    rw [List.filter_filter]
    apply List.filter_congr
    intro e _
    have hcc := covered_cons root n ns fs e
    cases hA : coveredBy root ns (sweepDirPhase root n fs) e <;>
      cases hB : dirHit root n fs e.path <;>
      cases hC : coveredBy root (n :: ns) fs e <;>
      simp_all

theorem file_fold (root : String) :
    ∀ (pats : List String) (fs : List Entry),
      pats.foldl (fun acc pat => sweepFilePhase root pat acc) fs =
        fs.filter (fun e =>
          !(pats.any (fun pat => rglobMatch pat e.path) && !venvSkip root e.path)) := by
  intro pats
  induction pats with
  | nil =>
    intro fs
    simp
  | cons pt ps ih =>
    intro fs
    rw [List.foldl_cons, ih (sweepFilePhase root pt fs)]
    show List.filter (fun e =>
        !((ps.any fun pat => rglobMatch pat e.path) && !venvSkip root e.path))
      (List.filter (fun e => !(rglobMatch pt e.path && !venvSkip root e.path)) fs) = _
    rw [List.filter_filter]
    apply List.filter_congr
    intro e _
    cases hM : rglobMatch pt e.path <;>
      cases hMs : ps.any (fun pat => rglobMatch pat e.path) <;>
      cases hV : venvSkip root e.path <;>
      simp [hM, hMs, hV]

/-- C9 counterexample: the matched cache directory `devenv/__pycache__`
carries the marker only inside the longer component `devenv`, so by the
claim it must not be skipped; `clear_cache` nevertheless skips it — the
skip test is a plain substring test on the whole path string — and deletes
nothing. -/
theorem clear_cache_skip_cex :
    rglobMatch "__pycache__" ["devenv", "__pycache__"] = true ∧
      hasVenvSegment ["devenv", "__pycache__"] = false ∧
      clearCacheFS "/r" [⟨["devenv"], .dir⟩, ⟨["devenv", "__pycache__"], .dir⟩] =
        [⟨["devenv"], .dir⟩, ⟨["devenv", "__pycache__"], .dir⟩] :=
  ⟨by decide, by decide, by decide⟩

/-- C9 amended: `clear_cache` deletes exactly the entries below (or at) an
`rglob` match of a cache directory name plus the remaining entries matching
a cache file pattern, skipping exactly those matched paths whose absolute
path string contains `"venv"` as a substring anywhere — including inside a
longer component name or the root prefix — rather than only as a whole
path segment. -/
theorem clear_cache_deletes_exactly (root : String) (fs : List Entry) :
    clearCacheFS root fs =
      fs.filter (fun e => !(dirDoomed root fs e || fileDoomed root e)) := by
  show cacheFileExtensions.foldl (fun acc pat => sweepFilePhase root pat acc)
      (cacheDirectories.foldl (fun acc name => sweepDirPhase root name acc) fs) = _
  rw [sweep_fold root cacheDirectories fs]
  rw [file_fold root cacheFileExtensions _]
  rw [List.filter_filter]
  apply List.filter_congr
  intro e _
  unfold dirDoomed fileDoomed
  cases hD : coveredBy root cacheDirectories fs e <;>
    cases hF : cacheFileExtensions.any (fun pat => rglobMatch pat e.path) <;>
    cases hV : venvSkip root e.path <;>
    simp [hD, hF, hV]

/-! ### `confirm` -/

/-- C10: over every sequence of input lines and every default, the reply
loop of `confirm` stops at the first decisive reply and interprets it: it
returns `True` exactly when that reply (stripped and lowercased) is one of
`y`, `yes`, `t`, `true`, `on`, `1`; `False` exactly when it is one of `n`,
`no`, `f`, `false`, `off`, `0`; an empty or whitespace-only reply returns
`default == "yes"` immediately when a default is set; every other reply is
skipped by a re-prompt and never interpreted as an answer. -/
theorem confirm_first_decisive (d : Option String) (lines : List String) :
    confirmLoop d lines =
      ((lines.find? (fun l => decisiveReply d l)).map (fun l => interpretReply d l)) := by
  induction lines with
  | nil => rfl
  | cons line rest ih =>
    rw [List.find?_cons]
    by_cases h1 : pyLower (pyStrip line) = ""
    · rcases d with _ | dv
      · simpa [confirmLoop, decisiveReply, h1] using ih
      · simp [confirmLoop, decisiveReply, interpretReply, h1]
    · by_cases h2 : pyLower (pyStrip line) ∈ trueTokens
      · simp [confirmLoop, decisiveReply, interpretReply, h1, h2]
      · by_cases h3 : pyLower (pyStrip line) ∈ falseTokens
        · simp [confirmLoop, decisiveReply, interpretReply, h1, h2, h3]
        · have h1b : (pyLower (pyStrip line) == "") = false := by
            simpa using h1
          simpa [confirmLoop, decisiveReply, h1, h1b, h2, h3] using ih

end Fops
